import Mathlib

/-!
Shallow embedding of the siegfried repository's reconciliation engine
(cmd/internal/reader/compare.go) and identifier-loader registry
(pkg/core/core.go), with theorems settling the specification claims.

Conventions of the embedding:

* a Go result set read through Reader.Next is a ResultSet: the list of File
  entries Next yields before it first returns a non-nil error, together with
  the way reading ended (ReadEnd.eof for io.EOF, ReadEnd.fail for a parse
  error);
* the Go map results plus the files slice of Compare become the BState
  structure, with the map rendered as an association list whose keys are
  unique (an invariant proved below);
* the csv writer is abstracted to a function wr from a row to Option String:
  none means the write succeeded, some e means it failed with error e, which
  is what Compare sees from csv.Writer.Write;
* opening the input paths is abstracted to a list of Except values: the
  outcome Open would give for each path.
-/

namespace Sieg

/-- One entry of a result set as the external Reader yields it
(the File of compare.go). IDs holds the identity strings of the
identifications, i.e. the values id.String() that idStr consumes. -/
structure File where
  Path : String
  Size : Int
  Mod : String
  Hash : String
  IDs : List String
deriving Repr, DecidableEq

/-- Join-strategy constant Path of compare.go (iota value 0). -/
def Path : Int := 0

/-- Join-strategy constant Filename of compare.go (iota value 1). -/
def Filename : Int := 1

/-- Join-strategy constant FilenameSize of compare.go (iota value 2). -/
def FilenameSize : Int := 2

/-- Join-strategy constant FilenameMod of compare.go (iota value 3). -/
def FilenameMod : Int := 3

/-- Join-strategy constant FilenameHash of compare.go (iota value 4). -/
def FilenameHash : Int := 4

/-- Join-strategy constant Hash of compare.go (iota value 5). -/
def Hash : Int := 5

/-- Model of Go filepath.Base on unix paths, as used by keygen: empty path
gives ".", trailing separators are stripped, everything up to the last
separator is dropped, and an all-separator path gives "/". -/
def baseName (path : String) : String :=
  if path = "" then "."
  else
    let r := path.data.reverse.dropWhile (fun c => c = '/')
    if r = [] then "/"
    else String.mk (r.takeWhile (fun c => c ≠ '/')).reverse

/-- The keygen function of compare.go: derives the join key of a File under
the selected strategy; every value other than the five named non-default
strategies falls to the default case, the raw Path. -/
def keygen (join : Int) (fi : File) : String :=
  if join = Filename then baseName fi.Path
  else if join = FilenameSize then baseName fi.Path ++ toString fi.Size
  else if join = FilenameMod then baseName fi.Path ++ fi.Mod
  else if join = FilenameHash then baseName fi.Path ++ fi.Hash
  else if join = Hash then fi.Hash
  else fi.Path

/-- Lexicographic order on character lists, comparing code points. Go
compares strings byte by byte; on UTF-8 data byte order and code-point
order agree, so this is the order Go string comparison uses. -/
def strList : List Char → List Char → Bool
  | [], _ => true
  | _ :: _, [] => false
  | a :: as, b :: bs =>
    if a.toNat = b.toNat then strList as bs else decide (a.toNat < b.toNat)

/-- The ascending string order of sort.Strings. -/
def strLe (a b : String) : Bool := strList a.data b.data

/-- The order strLe as a decidable relation, for the sorting function. -/
abbrev strLeP (a b : String) : Prop := strLe a b = true

/-- The idStr function of compare.go: collect the identity strings of the
identifications of a File, sort them ascending (sort.Strings), and join
them with semicolons. -/
def idStr (fi : File) : String :=
  String.intercalate ";" (fi.IDs.insertionSort strLeP)

/-- The matches function of compare.go: a row matches when it has at least
three columns and every column from index 2 on equals column 1. -/
def matchesRow (res : List String) : Bool :=
  if res.length < 3 then false
  else
    match res with
    | _ :: m :: rest => rest.all (fun r => decide (r = m))
    | _ => false

/-- The mutable state of the Compare entry loop: the files slice of keys in
first-seen order and the results map, rendered as an association list. -/
structure BState where
  files : List String
  results : List (String × List String)
deriving Repr, DecidableEq

/-- Lookup of a key in the association list modelling the results map. -/
def lookupRow : List (String × List String) → String → Option (List String)
  | [], _ => none
  | (k', r) :: rest, k => if k' = k then some r else lookupRow rest k

/-- In-place update of column j of the row bound to key k, modelling the Go
assignment results[key][i+1] = idStr(f); rows under other keys are
untouched. -/
def updateCol : List (String × List String) → String → Nat → String →
    List (String × List String)
  | [], _, _, _ => []
  | (k', r) :: rest, k, j, v =>
    if k' = k then (k', r.set j v) :: updateCol rest k j v
    else (k', r) :: updateCol rest k j v

/-- One iteration of the inner loop of Compare for the entry f of reader i,
with n readers overall: compute the key; on first sight append the key to
files and bind it to a fresh row holding the path and n MISSING markers;
then unconditionally set column i+1 to idStr f. -/
def step (n : Nat) (join : Int) (st : BState) (x : Nat × File) : BState :=
  let key := keygen join x.2
  let st1 :=
    match lookupRow st.results key with
    | some _ => st
    | none =>
      { files := st.files ++ [key]
        results := st.results ++ [(key, x.2.Path :: List.replicate n "MISSING")] }
  { st1 with results := updateCol st1.results key (x.1 + 1) (idStr x.2) }

/-- Consumption of one result set by Compare: fold the entry step over the
entries the reader yields before its first non-nil error. -/
def processSet (n i : Nat) (join : Int) (st : BState) (fs : List File) : BState :=
  fs.foldl (fun st f => step n join st (i, f)) st

/-- The whole reading phase of Compare over the entry lists of the n result
sets, in order. -/
def buildState (join : Int) (sets : List (List File)) : BState :=
  sets.enum.foldl (fun st p => processSet sets.length p.1 join st p.2) ⟨[], []⟩

/-- The interleaved stream of (reader index, entry) pairs Compare consumes. -/
def stream (sets : List (List File)) : List (Nat × File) :=
  sets.enum.flatMap (fun p => p.2.map (fun f => (p.1, f)))

/-- How a reader's Next sequence ended: io.EOF or some other (parse) error. -/
inductive ReadEnd where
  | eof
  | fail (msg : String)
deriving Repr, DecidableEq

/-- One opened result set: the entries Next yields before its first non-nil
error, and the way reading ended. -/
structure ResultSet where
  entries : List File
  fin : ReadEnd
deriving Repr, DecidableEq

/-- The opening loop of Compare: open each path in order, returning the
first open error if any, otherwise all readers. -/
def openAll : List (Except String ResultSet) → Except String (List ResultSet)
  | [] => Except.ok []
  | Except.error e :: _ => Except.error e
  | Except.ok r :: rest =>
    match openAll rest with
    | Except.error e => Except.error e
    | Except.ok rs => Except.ok (r :: rs)

/-- The observable outcome of a Compare run: the csv rows actually written,
whether the COMPLETE MATCH marker was printed, and the error returned. -/
structure CompareOut where
  written : List (List String)
  marker : Bool
  err : Option String
deriving Repr, DecidableEq

/-- The output loop of Compare: walk the keys in first-seen order, skip rows
that match, write the others; a failing write returns its error at once
(the complete flag is moot then, the marker is never printed); otherwise
return the rows written and whether all rows matched. -/
def writeGo (wr : List String → Option String) (rs : List (String × List String)) :
    List String → List (List String) → Bool → List (List String) × Bool × Option String
  | [], acc, complete => (acc, complete, none)
  | k :: ks, acc, complete =>
    let row := (lookupRow rs k).getD []
    if matchesRow row then writeGo wr rs ks acc complete
    else
      match wr row with
      | some e => (acc, false, some e)
      | none => writeGo wr rs ks (acc ++ [row]) false

/-- The Compare function of compare.go. With fewer than two paths it returns
the usage error before looking at any open outcome; then it opens all
readers, returning the first open error; then it consumes every reader's
entries building the key table; finally it writes the mismatching rows and
prints COMPLETE MATCH when the complete flag survived the loop. -/
def Compare (join : Int) (opens : List (Except String ResultSet))
    (wr : List String → Option String) : CompareOut :=
  if opens.length < 2 then
    ⟨[], false,
      some ("at least two results files must be provided for comparison; got "
        ++ toString opens.length)⟩
  else
    match openAll opens with
    | Except.error e => ⟨[], false, some e⟩
    | Except.ok sets =>
      let st := buildState join (sets.map ResultSet.entries)
      match writeGo wr st.results st.files [] true with
      | (written, complete, none) => ⟨written, complete, none⟩
      | (written, _, some e) => ⟨written, false, some e⟩

/-- Spec-following definition for claim C1: the semicolon join of the
sorted and then deduplicated identity strings of a File. -/
def idStrSpec (fi : File) : String :=
  String.intercalate ";" (fi.IDs.insertionSort strLeP).dedup

/-- Spec-following definition for claim C4: the identity columns of a row
(everything past the path column) that are not the MISSING sentinel. -/
def nonMissingCols (row : List String) : List String :=
  (row.drop 1).filter (fun c => c ≠ "MISSING")

/-- Spec-following definition for claim C4: whether the identity-column
text of a row is identical across all non-MISSING columns. -/
def nonMissingIdentical (row : List String) : Bool :=
  match nonMissingCols row with
  | [] => true
  | c :: rest => rest.all (fun r => decide (r = c))

/-- Spec-following definition: the distinct keys of a key stream in
first-seen order. -/
def firstSeen (ks : List String) : List String :=
  ks.foldl (fun acc k => if k ∈ acc then acc else acc ++ [k]) []

/-- The first entry of the stream whose key is k, over any reader. -/
def firstKeyed (join : Int) (p : List (Nat × File)) (k : String) : Option File :=
  (p.find? (fun x => decide (keygen join x.2 = k))).map (fun x => x.2)

/-- The last entry of reader i in the stream whose key is k. -/
def lastKeyed (join : Int) (p : List (Nat × File)) (i : Nat) (k : String) : Option File :=
  (p.reverse.find? (fun x => decide (x.1 = i) && decide (keygen join x.2 = k))).map
    (fun x => x.2)

/-- Modelled from the spec: the LoadSaver persistence cursor of
pkg/core/signature, whose source is outside src/. Per the spec it is a
sequential cursor over a binary buffer with a sticky error state: once Err
is set, reads are no-ops returning zero values; reading past the end sets
the sticky error. Bytes are modelled as Nat values. -/
structure LoadSaver where
  buf : List Nat
  pos : Nat
  Err : Option String
deriving Repr, DecidableEq

/-- Modelled from the spec: LoadByte on the sticky cursor. On a poisoned
cursor it returns the zero value and leaves the cursor untouched; past the
end of the buffer it sets the sticky truncation error; otherwise it yields
the byte at the cursor and advances. -/
def LoadByte (ls : LoadSaver) : Nat × LoadSaver :=
  match ls.Err with
  | some _ => (0, ls)
  | none =>
    if h : ls.pos < ls.buf.length then
      (ls.buf.get ⟨ls.pos, h⟩, { ls with pos := ls.pos + 1 })
    else
      (0, { ls with Err := some "read past end of signature buffer" })

/-- An Identifier reconstructed by a loader; its inner state is irrelevant
to the claims, so it is an abstract token. -/
structure Identifier where
  tag : Nat
deriving Repr, DecidableEq

/-- The IdentifierLoader function type of core.go: consumes the cursor and
produces an identifier (possibly a nil one) and the advanced cursor. -/
def IdentifierLoader : Type := LoadSaver → Option Identifier × LoadSaver

/-- The LoadIdentifier function of core.go over an explicit registry value
(the global loaders array, a fixed 8-slot table). The outer Option models
the run not faulting: none is the index-out-of-range panic of
loaders[int(id)]; some carries the returned identifier (none for Go nil)
and the final cursor. An unregistered slot sets the sticky error "bad
identifier loader" only when no earlier error is recorded. -/
def LoadIdentifier (loaders : List (Option IdentifierLoader)) (ls : LoadSaver) :
    Option (Option Identifier × LoadSaver) :=
  let r := LoadByte ls
  match loaders.get? r.1 with
  | none => none
  | some none =>
    some (none,
      if r.2.Err = none then { r.2 with Err := some "bad identifier loader" } else r.2)
  | some (some l) => some (l r.2)

/-- A concretely populated 8-slot registry: the Pronom tag 0 is registered,
all other slots are empty, as after the single RegisterIdentifier call of
the pronom package. -/
def regLoaders : List (Option IdentifierLoader) :=
  some (fun ls => (some ⟨0⟩, ls)) :: List.replicate 7 none

/-! Properties of the string order used by the sort. -/

theorem strList_total (l m : List Char) : strList l m = true ∨ strList m l = true := by
  induction l generalizing m with
  | nil => exact Or.inl rfl
  | cons a as ih =>
    cases m with
    | nil => exact Or.inr rfl
    | cons b bs =>
      by_cases h : a.toNat = b.toNat
      · simp only [strList]
        rw [if_pos h, if_pos h.symm]
        exact ih bs
      · have h' : ¬b.toNat = a.toNat := fun hh => h hh.symm
        simp only [strList, if_neg h, if_neg h', decide_eq_true_eq]
        omega

theorem strList_trans (l m n : List Char) (h1 : strList l m = true)
    (h2 : strList m n = true) : strList l n = true := by
  induction l generalizing m n with
  | nil => rfl
  | cons a as ih =>
    cases m with
    | nil => simp [strList] at h1
    | cons b bs =>
      cases n with
      | nil => simp [strList] at h2
      | cons c cs =>
        simp only [strList] at h1 h2 ⊢
        by_cases hab : a.toNat = b.toNat
        · rw [if_pos hab] at h1
          by_cases hbc : b.toNat = c.toNat
          · rw [if_pos hbc] at h2
            rw [if_pos (hab.trans hbc)]
            exact ih bs cs h1 h2
          · rw [if_neg hbc, decide_eq_true_eq] at h2
            rw [if_neg (fun hh => hbc (hab ▸ hh)), decide_eq_true_eq]
            omega
        · rw [if_neg hab, decide_eq_true_eq] at h1
          by_cases hbc : b.toNat = c.toNat
          · rw [if_neg (fun hh => hab (hbc ▸ hh)), decide_eq_true_eq]
            omega
          · rw [if_neg hbc, decide_eq_true_eq] at h2
            rw [if_neg (by omega), decide_eq_true_eq]
            omega

theorem strList_antisymm (l m : List Char) (h1 : strList l m = true)
    (h2 : strList m l = true) : l = m := by
  induction l generalizing m with
  | nil =>
    cases m with
    | nil => rfl
    | cons b bs => simp [strList] at h2
  | cons a as ih =>
    cases m with
    | nil => simp [strList] at h1
    | cons b bs =>
      simp only [strList] at h1 h2
      by_cases hab : a.toNat = b.toNat
      · rw [if_pos hab] at h1
        rw [if_pos hab.symm] at h2
        have hchar : a = b := Char.eq_of_val_eq (UInt32.toNat.inj hab)
        rw [hchar, ih bs h1 h2]
      · rw [if_neg hab, decide_eq_true_eq] at h1
        rw [if_neg (fun hh => hab hh.symm), decide_eq_true_eq] at h2
        omega

theorem strLeP_total (a b : String) : strLeP a b ∨ strLeP b a :=
  strList_total a.data b.data

theorem strLeP_trans (a b c : String) (h1 : strLeP a b) (h2 : strLeP b c) :
    strLeP a c :=
  strList_trans a.data b.data c.data h1 h2

theorem strLeP_antisymm (a b : String) (h1 : strLeP a b) (h2 : strLeP b a) :
    a = b := by
  have h := strList_antisymm a.data b.data h1 h2
  cases a
  cases b
  exact congrArg String.mk h

instance : IsTotal String strLeP := ⟨strLeP_total⟩

instance : IsTrans String strLeP := ⟨strLeP_trans⟩

instance : IsAntisymm String strLeP := ⟨strLeP_antisymm⟩

/-! Helper lemmas about the association list modelling the results map. -/

theorem lookupRow_eq_none (rs : List (String × List String)) (k : String) :
    lookupRow rs k = none ↔ k ∉ rs.map Prod.fst := by
  induction rs with
  | nil => simp [lookupRow]
  | cons p rest ih =>
    obtain ⟨k', r⟩ := p
    by_cases h : k' = k
    · subst h
      simp [lookupRow]
    · have h' : ¬k = k' := fun hk => h hk.symm
      simp [lookupRow, h, h', ih]

theorem lookupRow_append (rs₁ rs₂ : List (String × List String)) (k : String) :
    lookupRow (rs₁ ++ rs₂) k = (lookupRow rs₁ k).or (lookupRow rs₂ k) := by
  induction rs₁ with
  | nil => simp [lookupRow]
  | cons p rest ih =>
    obtain ⟨k', r⟩ := p
    by_cases h : k' = k
    · simp [lookupRow, h]
    · simp [lookupRow, h, ih]

theorem lookupRow_single (k0 k : String) (r0 : List String) :
    lookupRow [(k0, r0)] k = if k0 = k then some r0 else none := by
  by_cases h : k0 = k <;> simp [lookupRow, h]

theorem lookupRow_updateCol_self (rs : List (String × List String)) (k : String)
    (j : Nat) (v : String) :
    lookupRow (updateCol rs k j v) k = (lookupRow rs k).map (fun r => r.set j v) := by
  induction rs with
  | nil => simp [lookupRow, updateCol]
  | cons p rest ih =>
    obtain ⟨k', r⟩ := p
    by_cases h : k' = k
    · simp [lookupRow, updateCol, h]
    · simp [lookupRow, updateCol, h, ih]

theorem lookupRow_updateCol_ne (rs : List (String × List String)) (k k' : String)
    (j : Nat) (v : String) (h : k' ≠ k) :
    lookupRow (updateCol rs k j v) k' = lookupRow rs k' := by
  induction rs with
  | nil => simp [lookupRow, updateCol]
  | cons p rest ih =>
    obtain ⟨k0, r⟩ := p
    by_cases h0 : k0 = k
    · simp [lookupRow, updateCol, h0, Ne.symm h, ih]
    · by_cases h1 : k0 = k'
      · simp [lookupRow, updateCol, h0, h1, h]
      · simp [lookupRow, updateCol, h0, h1, ih]

theorem map_fst_updateCol (rs : List (String × List String)) (k : String)
    (j : Nat) (v : String) :
    (updateCol rs k j v).map Prod.fst = rs.map Prod.fst := by
  induction rs with
  | nil => simp [updateCol]
  | cons p rest ih =>
    obtain ⟨k0, r⟩ := p
    by_cases h0 : k0 = k <;> simp [updateCol, h0, ih]

/-! Helper lemmas about one step of the entry loop. -/

theorem step_files (n : Nat) (join : Int) (st : BState) (x : Nat × File) :
    (step n join st x).files =
      if lookupRow st.results (keygen join x.2) = none then
        st.files ++ [keygen join x.2]
      else st.files := by
  unfold step
  cases h : lookupRow st.results (keygen join x.2) <;> simp [h]

theorem step_results_of_found (n : Nat) (join : Int) (st : BState) (x : Nat × File)
    (r0 : List String) (h : lookupRow st.results (keygen join x.2) = some r0) :
    (step n join st x).results =
      updateCol st.results (keygen join x.2) (x.1 + 1) (idStr x.2) := by
  unfold step
  simp [h]

theorem step_results_of_new (n : Nat) (join : Int) (st : BState) (x : Nat × File)
    (h : lookupRow st.results (keygen join x.2) = none) :
    (step n join st x).results =
      updateCol (st.results ++ [(keygen join x.2, x.2.Path :: List.replicate n "MISSING")])
        (keygen join x.2) (x.1 + 1) (idStr x.2) := by
  unfold step
  simp [h]

/-! Flattening of the nested reading loops into a fold over the stream. -/

theorem processSet_eq_foldl (n i : Nat) (join : Int) (st : BState) (fs : List File) :
    processSet n i join st fs = (fs.map (fun f => (i, f))).foldl (step n join) st := by
  unfold processSet
  rw [List.foldl_map]

theorem buildState_eq_foldl (join : Int) (sets : List (List File)) :
    buildState join sets = (stream sets).foldl (step sets.length join) ⟨[], []⟩ := by
  unfold buildState stream
  generalize sets.enum = l
  generalize (⟨[], []⟩ : BState) = st
  induction l generalizing st with
  | nil => simp
  | cons a l ih =>
    simp only [List.foldl_cons, List.flatMap_cons, List.foldl_append]
    rw [processSet_eq_foldl, ih]

/-- Every index in the stream of a family of sets is below the number of
sets. -/
theorem stream_fst_lt (sets : List (List File)) (x : Nat × File) (hx : x ∈ stream sets) :
    x.1 < sets.length := by
  unfold stream at hx
  simp only [List.mem_flatMap, List.mem_map] at hx
  obtain ⟨p, hp, f, _, hf⟩ := hx
  have := List.mem_enum_iff_getElem?.mp hp
  have hlt : p.1 < sets.length := by
    by_contra hge
    rw [List.getElem?_eq_none (Nat.le_of_not_lt hge)] at this
    exact Option.noConfusion this
  rw [← hf]
  exact hlt

/-! Behaviour of the spec-side stream observers under appending one entry. -/

theorem firstKeyed_append_single (join : Int) (p : List (Nat × File)) (x : Nat × File)
    (k : String) :
    firstKeyed join (p ++ [x]) k =
      (firstKeyed join p k).or (if keygen join x.2 = k then some x.2 else none) := by
  unfold firstKeyed
  rw [List.find?_append]
  cases h : p.find? (fun y => decide (keygen join y.2 = k)) with
  | some y => simp
  | none =>
    by_cases hx : keygen join x.2 = k <;> simp [List.find?, hx]

theorem lastKeyed_append_single (join : Int) (p : List (Nat × File)) (x : Nat × File)
    (i : Nat) (k : String) :
    lastKeyed join (p ++ [x]) i k =
      if x.1 = i ∧ keygen join x.2 = k then some x.2 else lastKeyed join p i k := by
  unfold lastKeyed
  rw [List.reverse_append]
  simp only [List.reverse_singleton, List.singleton_append]
  by_cases hx : x.1 = i ∧ keygen join x.2 = k
  · simp [List.find?, hx.1, hx.2]
  · rw [if_neg hx]
    have hpred : (decide (x.1 = i) && decide (keygen join x.2 = k)) = false := by
      simp only [Bool.and_eq_false_iff, decide_eq_false_iff_not]
      by_cases h1 : x.1 = i
      · exact Or.inr (fun h2 => hx ⟨h1, h2⟩)
      · exact Or.inl h1
    simp [List.find?_cons, hpred]

theorem lastKeyed_eq_none_of_firstKeyed (join : Int) (p : List (Nat × File))
    (i : Nat) (k : String) (h : firstKeyed join p k = none) :
    lastKeyed join p i k = none := by
  unfold firstKeyed at h
  unfold lastKeyed
  simp only [Option.map_eq_none', List.find?_eq_none] at h ⊢
  intro x hx
  simp only [Bool.and_eq_true, decide_eq_true_eq, not_and]
  intro _
  have := h x (List.mem_reverse.mp hx)
  simpa using this

theorem firstSeen_append_single (ks : List String) (k : String) :
    firstSeen (ks ++ [k]) =
      if k ∈ firstSeen ks then firstSeen ks else firstSeen ks ++ [k] := by
  unfold firstSeen
  rw [List.foldl_append]
  rfl

theorem firstSeen_nodup (ks : List String) : (firstSeen ks).Nodup := by
  induction ks using List.reverseRecOn with
  | nil => simp [firstSeen]
  | append_singleton ks k ih =>
    rw [firstSeen_append_single]
    by_cases h : k ∈ firstSeen ks
    · simpa [h] using ih
    · rw [if_neg h]
      simp only [List.nodup_append, List.nodup_cons, List.nodup_nil]
      exact ⟨ih, by simp, by simpa [List.disjoint_singleton] using h⟩

/-! Behaviour of the output loop. -/

theorem writeGo_ok (rs : List (String × List String)) (keys : List String)
    (acc : List (List String)) (complete : Bool) :
    writeGo (fun _ => none) rs keys acc complete =
      (acc ++ (keys.map (fun k => (lookupRow rs k).getD [])).filter
          (fun r => !matchesRow r),
       complete && (keys.map (fun k => (lookupRow rs k).getD [])).all matchesRow,
       none) := by
  induction keys generalizing acc complete with
  | nil => simp [writeGo]
  | cons k ks ih =>
    by_cases h : matchesRow ((lookupRow rs k).getD [])
    · simp [writeGo, h, ih]
    · simp [writeGo, h, ih]

theorem writeGo_err (wr : List String → Option String) (rs : List (String × List String))
    (keys : List String) (acc w : List (List String)) (c cc : Bool) (e : String)
    (h : writeGo wr rs keys acc c = (w, cc, some e)) :
    ∃ row, wr row = some e := by
  induction keys generalizing acc c with
  | nil => simp [writeGo] at h
  | cons k ks ih =>
    simp only [writeGo] at h
    by_cases hm : matchesRow ((lookupRow rs k).getD [])
    · rw [if_pos hm] at h
      exact ih _ _ h
    · rw [if_neg hm] at h
      cases hw : wr ((lookupRow rs k).getD []) with
      | some e0 =>
        rw [hw] at h
        simp only [Prod.mk.injEq] at h
        exact ⟨(lookupRow rs k).getD [], by rw [hw, h.2.2]⟩
      | none =>
        rw [hw] at h
        exact ih _ _ h

/-! Behaviour of the opening loop. -/

/-- Two open outcomes have the same shape when they are the same error or
result sets holding the same entries, differing at most in how reading
ended. -/
def OpenShape : Except String ResultSet → Except String ResultSet → Prop
  | Except.error e, Except.error e' => e = e'
  | Except.ok r, Except.ok r' => r.entries = r'.entries
  | _, _ => False

theorem openAll_shape (opens opens' : List (Except String ResultSet))
    (h : List.Forall₂ OpenShape opens opens') :
    (∃ e, openAll opens = Except.error e ∧ openAll opens' = Except.error e) ∨
    (∃ s s', openAll opens = Except.ok s ∧ openAll opens' = Except.ok s' ∧
      s.map ResultSet.entries = s'.map ResultSet.entries) := by
  induction h with
  | nil => exact Or.inr ⟨[], [], rfl, rfl, rfl⟩
  | cons hab hl ih =>
    rename_i a b l₁ l₂
    cases a with
    | error e =>
      cases b with
      | error e' =>
        have : e = e' := hab
        subst this
        exact Or.inl ⟨e, rfl, rfl⟩
      | ok r' => exact absurd hab (by simp [OpenShape])
    | ok r =>
      cases b with
      | error e' => exact absurd hab (by simp [OpenShape])
      | ok r' =>
        have hent : r.entries = r'.entries := hab
        cases ih with
        | inl h1 =>
          obtain ⟨e, h1, h2⟩ := h1
          exact Or.inl ⟨e, by simp [openAll, h1], by simp [openAll, h2]⟩
        | inr h2 =>
          obtain ⟨s, s', h1, h2, h3⟩ := h2
          refine Or.inr ⟨r :: s, r' :: s', by simp [openAll, h1], by simp [openAll, h2], ?_⟩
          simp [hent, h3]

theorem openAll_ok_of_all_ok (sets : List ResultSet) :
    openAll (sets.map Except.ok) = Except.ok sets := by
  induction sets with
  | nil => rfl
  | cons r rest ih => simp [openAll, ih]

theorem openAll_first_error (good : List (Except String ResultSet)) (e : String)
    (rest : List (Except String ResultSet))
    (hgood : ∀ x ∈ good, ∃ r, x = Except.ok r) :
    openAll (good ++ Except.error e :: rest) = Except.error e := by
  induction good with
  | nil => rfl
  | cons a g ih =>
    obtain ⟨r, hr⟩ := hgood a (by simp)
    subst hr
    rw [List.cons_append]
    show openAll (Except.ok r :: (g ++ Except.error e :: rest)) = Except.error e
    simp [openAll, ih (fun x hx => hgood x (by simp [hx]))]

/-! Positional access helpers for rows. -/

theorem getD_set_self (l : List String) (i : Nat) (v d : String) (h : i < l.length) :
    (l.set i v).getD i d = v := by
  simp [List.getD_eq_getElem?_getD, List.getElem?_set_self h]

theorem getD_set_ne (l : List String) (i j : Nat) (v d : String) (h : i ≠ j) :
    (l.set i v).getD j d = l.getD j d := by
  simp [List.getD_eq_getElem?_getD, List.getElem?_set_ne h]

theorem getD_replicate_of_lt (n j : Nat) (a d : String) (h : j < n) :
    (List.replicate n a).getD j d = a := by
  simp [List.getD_eq_getElem?_getD, List.getElem?_replicate_of_lt h]

/-! The master invariant of the reading phase. -/

/-- Folding the entry step over a stream prefix, starting from the empty
state Compare allocates. -/
def runState (n : Nat) (join : Int) (p : List (Nat × File)) : BState :=
  p.foldl (step n join) ⟨[], []⟩

theorem runState_append (n : Nat) (join : Int) (p : List (Nat × File)) (x : Nat × File) :
    runState n join (p ++ [x]) = step n join (runState n join p) x := by
  unfold runState
  rw [List.foldl_append]
  rfl

theorem buildState_eq_runState (join : Int) (sets : List (List File)) :
    buildState join sets = runState sets.length join (stream sets) :=
  buildState_eq_foldl join sets

/-- The invariant of the reading phase of Compare, over any prefix p of the
entry stream: the keys of the results map are exactly the files slice; the
files slice lists the distinct keys in first-seen order; a key is absent
from the map exactly when no consumed entry produced it; and every row has
1 + n columns, its path column taken from the first entry that produced its
key, and, for each reader index j below n, column j + 1 holding idStr of
the last entry of reader j with that key, or MISSING when reader j
contributed none. -/
theorem compareInv (n : Nat) (join : Int) (p : List (Nat × File)) :
    (runState n join p).results.map Prod.fst = (runState n join p).files ∧
    (runState n join p).files = firstSeen (p.map (fun x => keygen join x.2)) ∧
    (∀ k, lookupRow (runState n join p).results k = none ↔ firstKeyed join p k = none) ∧
    (∀ k r, lookupRow (runState n join p).results k = some r →
      r.length = n + 1 ∧
      (∃ f, firstKeyed join p k = some f ∧ r.getD 0 "" = f.Path) ∧
      (∀ j, j < n →
        r.getD (j + 1) "" =
          match lastKeyed join p j k with
          | some g => idStr g
          | none => "MISSING")) := by
  induction p using List.reverseRecOn with
  | nil =>
    refine ⟨rfl, rfl, ?_, ?_⟩
    · intro k
      simp [runState, lookupRow, firstKeyed, List.find?]
    · intro k r h
      simp [runState, lookupRow] at h
  | append_singleton p x ih =>
    obtain ⟨ih1, ih2, ih3, ih4⟩ := ih
    rw [runState_append]
    have hmapkeys : (p ++ [x]).map (fun y => keygen join y.2) =
        p.map (fun y => keygen join y.2) ++ [keygen join x.2] := by
      simp
    cases hl : lookupRow (runState n join p).results (keygen join x.2) with
    | some r0 =>
      have hres := step_results_of_found n join (runState n join p) x r0 hl
      have hfls := step_files n join (runState n join p) x
      rw [hl] at hfls
      simp only [if_neg (by simp : ¬(some r0 = none))] at hfls
      have hmem : keygen join x.2 ∈ (runState n join p).files := by
        rw [← ih1]
        by_contra hno
        rw [(lookupRow_eq_none _ _).mpr hno] at hl
        exact Option.noConfusion hl
      have hfk : firstKeyed join p (keygen join x.2) ≠ none := by
        intro hnone
        rw [← ih3 (keygen join x.2)] at hnone
        rw [hnone] at hl
        exact Option.noConfusion hl
      refine ⟨?_, ?_, ?_, ?_⟩
      · rw [hres, hfls, map_fst_updateCol, ih1]
      · rw [hfls, hmapkeys, firstSeen_append_single, if_pos (ih2 ▸ hmem), ih2]
      · intro k
        by_cases hk : k = keygen join x.2
        · subst hk
          rw [hres, lookupRow_updateCol_self, hl]
          rw [firstKeyed_append_single]
          cases hfk0 : firstKeyed join p (keygen join x.2) with
          | none => exact absurd hfk0 hfk
          | some f => simp
        · rw [hres, lookupRow_updateCol_ne _ _ _ _ _ hk]
          rw [firstKeyed_append_single]
          rw [if_neg (fun hx => hk hx.symm), Option.or_none]
          exact ih3 k
      · intro k r hr
        by_cases hk : k = keygen join x.2
        · subst hk
          rw [hres, lookupRow_updateCol_self, hl] at hr
          simp only [Option.map_some'] at hr
          obtain ⟨hlen0, ⟨f, hf, hpath⟩, hcols0⟩ := ih4 (keygen join x.2) r0 hl
          injection hr with hr
          subst hr
          refine ⟨by simp [hlen0], ?_, ?_⟩
          · refine ⟨f, ?_, ?_⟩
            · rw [firstKeyed_append_single, hf, Option.or_some]
            · rw [getD_set_ne _ _ _ _ _ (Nat.succ_ne_zero x.1), hpath]
          · intro j hj
            rw [lastKeyed_append_single]
            by_cases hji : x.1 = j
            · rw [if_pos ⟨hji, rfl⟩, hji]
              exact getD_set_self r0 (j + 1) (idStr x.2) "" (by omega)
            · rw [if_neg (fun hx => hji hx.1)]
              rw [getD_set_ne _ _ _ _ _ (fun hx => hji (Nat.succ_injective hx))]
              exact hcols0 j hj
        · rw [hres, lookupRow_updateCol_ne _ _ _ _ _ hk] at hr
          obtain ⟨hlen0, ⟨f, hf, hpath⟩, hcols0⟩ := ih4 k r hr
          refine ⟨hlen0, ?_, ?_⟩
          · refine ⟨f, ?_, hpath⟩
            rw [firstKeyed_append_single, if_neg (fun hx => hk hx.symm), Option.or_none, hf]
          · intro j hj
            rw [lastKeyed_append_single, if_neg (fun hx => hk hx.2.symm)]
            exact hcols0 j hj
    | none =>
      have hres := step_results_of_new n join (runState n join p) x hl
      have hfls := step_files n join (runState n join p) x
      rw [hl, if_pos rfl] at hfls
      have hnomem : keygen join x.2 ∉ (runState n join p).files := by
        rw [← ih1]
        exact (lookupRow_eq_none _ _).mp hl
      have hfknone : firstKeyed join p (keygen join x.2) = none :=
        (ih3 (keygen join x.2)).mp hl
      refine ⟨?_, ?_, ?_, ?_⟩
      · rw [hres, hfls, map_fst_updateCol, List.map_append, ih1]
        rfl
      · rw [hfls, hmapkeys, firstSeen_append_single, if_neg (ih2 ▸ hnomem), ih2]
      · intro k
        by_cases hk : k = keygen join x.2
        · subst hk
          rw [hres, lookupRow_updateCol_self, lookupRow_append, hl, Option.none_or,
            lookupRow_single, if_pos rfl]
          rw [firstKeyed_append_single, hfknone, Option.none_or, if_pos rfl]
          simp
        · rw [hres, lookupRow_updateCol_ne _ _ _ _ _ hk, lookupRow_append,
            lookupRow_single, if_neg (fun hx => hk hx.symm), Option.or_none]
          rw [firstKeyed_append_single, if_neg (fun hx => hk hx.symm), Option.or_none]
          exact ih3 k
      · intro k r hr
        by_cases hk : k = keygen join x.2
        · subst hk
          rw [hres, lookupRow_updateCol_self, lookupRow_append, hl, Option.none_or,
            lookupRow_single, if_pos rfl] at hr
          simp only [Option.map_some'] at hr
          injection hr with hr
          subst hr
          refine ⟨by simp, ?_, ?_⟩
          · refine ⟨x.2, ?_, ?_⟩
            · rw [firstKeyed_append_single, hfknone, Option.none_or, if_pos rfl]
            · rw [getD_set_ne _ _ _ _ _ (Nat.succ_ne_zero x.1)]
              rfl
          · intro j hj
            rw [lastKeyed_append_single]
            have hlkn : lastKeyed join p j (keygen join x.2) = none :=
              lastKeyed_eq_none_of_firstKeyed join p j (keygen join x.2) hfknone
            by_cases hji : x.1 = j
            · rw [if_pos ⟨hji, rfl⟩, hji]
              refine getD_set_self _ (j + 1) (idStr x.2) "" ?_
              simp [List.length_replicate]
              omega
            · rw [if_neg (fun hx => hji hx.1), hlkn]
              rw [getD_set_ne _ _ _ _ _ (fun hx => hji (Nat.succ_injective hx))]
              show (List.replicate n "MISSING").getD j "" = "MISSING"
              exact getD_replicate_of_lt n j _ "" hj
        · rw [hres, lookupRow_updateCol_ne _ _ _ _ _ hk, lookupRow_append,
            lookupRow_single, if_neg (fun hx => hk hx.symm), Option.or_none] at hr
          obtain ⟨hlen0, ⟨f, hf, hpath⟩, hcols0⟩ := ih4 k r hr
          refine ⟨hlen0, ?_, ?_⟩
          · refine ⟨f, ?_, hpath⟩
            rw [firstKeyed_append_single, if_neg (fun hx => hk hx.symm), Option.or_none, hf]
          · intro j hj
            rw [lastKeyed_append_single, if_neg (fun hx => hk hx.2.symm)]
            exact hcols0 j hj

/-! Consequences assembled for the claim theorems. -/

theorem mem_stream (sets : List (List File)) (x : Nat × File) :
    x ∈ stream sets ↔ ∃ fs, sets[x.1]? = some fs ∧ x.2 ∈ fs := by
  unfold stream
  simp only [List.mem_flatMap, List.mem_map]
  constructor
  · rintro ⟨p, hp, f, hf, hx⟩
    rw [← hx]
    exact ⟨p.2, List.mem_enum_iff_getElem?.mp hp, hf⟩
  · rintro ⟨fs, hfs, hx⟩
    refine ⟨(x.1, fs), List.mem_enum_iff_getElem?.mpr hfs, x.2, hx, rfl⟩

theorem firstKeyed_ne_none_iff (join : Int) (p : List (Nat × File)) (k : String) :
    firstKeyed join p k ≠ none ↔ ∃ x ∈ p, keygen join x.2 = k := by
  unfold firstKeyed
  constructor
  · intro h
    cases hf : p.find? (fun x => decide (keygen join x.2 = k)) with
    | none => rw [hf] at h; exact absurd rfl h
    | some x =>
      refine ⟨x, List.mem_of_find?_eq_some hf, ?_⟩
      simpa using List.find?_some hf
  · rintro ⟨x, hx, hk⟩
    intro hnone
    rw [Option.map_eq_none'] at hnone
    have hs : (p.find? (fun x => decide (keygen join x.2 = k))).isSome :=
      List.find?_isSome.mpr ⟨x, hx, by simpa using hk⟩
    rw [hnone] at hs
    simp at hs

/-- A key is in the files slice exactly when some consumed entry produced
it. -/
theorem mem_files_iff (n : Nat) (join : Int) (p : List (Nat × File)) (k : String) :
    k ∈ (runState n join p).files ↔ ∃ x ∈ p, keygen join x.2 = k := by
  obtain ⟨i1, _, i3, _⟩ := compareInv n join p
  rw [← i1]
  constructor
  · intro hm
    have hne : ¬lookupRow (runState n join p).results k = none :=
      fun hn => (lookupRow_eq_none _ _).mp hn hm
    exact (firstKeyed_ne_none_iff join p k).mp ((not_congr (i3 k)).mp hne)
  · intro hex
    have hne := (not_congr (i3 k)).mpr ((firstKeyed_ne_none_iff join p k).mpr hex)
    by_contra hm
    exact hne ((lookupRow_eq_none _ _).mpr hm)

/-- Consuming further entries only ever appends to the files slice: the
position of every key already present is final. -/
theorem runState_files_append (n : Nat) (join : Int) (p q : List (Nat × File)) :
    ∃ ext, (runState n join (p ++ q)).files = (runState n join p).files ++ ext := by
  induction q using List.reverseRecOn with
  | nil => exact ⟨[], by simp⟩
  | append_singleton q x ih =>
    obtain ⟨ext, hext⟩ := ih
    rw [show p ++ (q ++ [x]) = (p ++ q) ++ [x] by simp, runState_append, step_files]
    by_cases h : lookupRow (runState n join (p ++ q)).results (keygen join x.2) = none
    · rw [if_pos h, hext]
      exact ⟨ext ++ [keygen join x.2], by simp⟩
    · rw [if_neg h, hext]
      exact ⟨ext, rfl⟩

/-- The behaviour of Compare when at least two paths are given, every open
succeeds, and no csv write fails: no error, the written rows are the
mismatching rows in files order, and the marker reports whether every row
matched. -/
theorem Compare_of_ok (join : Int) (opens : List (Except String ResultSet))
    (sets : List ResultSet) (h2 : 2 ≤ opens.length)
    (hopen : openAll opens = Except.ok sets) :
    Compare join opens (fun _ => none) =
      ⟨((buildState join (sets.map ResultSet.entries)).files.map
          (fun k => (lookupRow (buildState join (sets.map ResultSet.entries)).results
            k).getD [])).filter (fun r => !matchesRow r),
        ((buildState join (sets.map ResultSet.entries)).files.map
          (fun k => (lookupRow (buildState join (sets.map ResultSet.entries)).results
            k).getD [])).all matchesRow,
        none⟩ := by
  unfold Compare
  rw [if_neg (by omega), hopen]
  simp only [writeGo_ok, List.nil_append, Bool.true_and]

/-! Claim theorems. -/

/-- Claim C3, counterexample: with two opened but empty result sets no row
exists at all, yet Compare prints the COMPLETE MATCH marker (the complete
flag is initialized true and the output loop runs zero times), while the
claim requires the marker to be withheld when no row exists. -/
theorem claimC3_counterexample :
    Compare 0 [Except.ok ⟨[], ReadEnd.eof⟩, Except.ok ⟨[], ReadEnd.eof⟩]
      (fun _ => none) = ⟨[], true, none⟩ ∧
    (buildState 0 [[], []]).files = [] := by
  exact ⟨rfl, rfl⟩

/-- Claim C3, amended: Compare emits the literal COMPLETE MATCH marker
exactly when zero rows mismatched, including the case where no row existed
at all; with successful opens and a non-failing writer no error is
returned. -/
theorem claimC3_amended (join : Int) (opens : List (Except String ResultSet))
    (sets : List ResultSet) (h2 : 2 ≤ opens.length)
    (hopen : openAll opens = Except.ok sets) :
    ((Compare join opens (fun _ => none)).marker = true ↔
      (Compare join opens (fun _ => none)).written = []) ∧
    (Compare join opens (fun _ => none)).err = none := by
  rw [Compare_of_ok join opens sets h2 hopen]
  refine ⟨?_, rfl⟩
  constructor
  · intro h
    rw [List.filter_eq_nil_iff]
    intro a ha
    rw [List.all_eq_true] at h
    simp [h a ha]
  · intro h
    rw [List.all_eq_true]
    intro a ha
    rw [List.filter_eq_nil_iff] at h
    have ha2 := h a ha
    simpa using ha2

/-- Witness for the amended claim C3 at a two-set input whose single row
matches: the marker is printed and nothing is written. -/
theorem claimC3_amended_witness :
    ((Compare 0
        [Except.ok ⟨[⟨"x", 0, "", "", ["a"]⟩], ReadEnd.eof⟩,
         Except.ok ⟨[⟨"x", 0, "", "", ["a"]⟩], ReadEnd.eof⟩]
        (fun _ => none)).marker = true ↔
      (Compare 0
        [Except.ok ⟨[⟨"x", 0, "", "", ["a"]⟩], ReadEnd.eof⟩,
         Except.ok ⟨[⟨"x", 0, "", "", ["a"]⟩], ReadEnd.eof⟩]
        (fun _ => none)).written = []) ∧
    (Compare 0
      [Except.ok ⟨[⟨"x", 0, "", "", ["a"]⟩], ReadEnd.eof⟩,
       Except.ok ⟨[⟨"x", 0, "", "", ["a"]⟩], ReadEnd.eof⟩]
      (fun _ => none)).err = none :=
  claimC3_amended 0
    [Except.ok ⟨[⟨"x", 0, "", "", ["a"]⟩], ReadEnd.eof⟩,
     Except.ok ⟨[⟨"x", 0, "", "", ["a"]⟩], ReadEnd.eof⟩]
    [⟨[⟨"x", 0, "", "", ["a"]⟩], ReadEnd.eof⟩, ⟨[⟨"x", 0, "", "", ["a"]⟩], ReadEnd.eof⟩]
    (by decide) rfl

/-- Claim C4, counterexample: with three result sets where the first two
agree on key x and the third holds nothing, the row has identical text in
all its non-MISSING identity columns yet it is written to the mismatch
output, because the matches function also compares the MISSING sentinel. -/
theorem claimC4_counterexample :
    (Compare 0
      [Except.ok ⟨[⟨"x", 0, "", "", ["a"]⟩], ReadEnd.eof⟩,
       Except.ok ⟨[⟨"x", 0, "", "", ["a"]⟩], ReadEnd.eof⟩,
       Except.ok ⟨[], ReadEnd.eof⟩]
      (fun _ => none)).written = [["x", "a", "a", "MISSING"]] ∧
    nonMissingIdentical ["x", "a", "a", "MISSING"] = true := by
  refine ⟨?_, ?_⟩ <;> decide

/-- Claim C4, amended: a row is excluded from the mismatch CSV output iff
the matches function holds of it — at least 3 columns and every identity
column beyond the path column textually identical, the MISSING sentinel
compared like any other text; the written rows are exactly the mismatching
rows in first-seen key order. -/
theorem claimC4_amended (join : Int) (opens : List (Except String ResultSet))
    (sets : List ResultSet) (h2 : 2 ≤ opens.length)
    (hopen : openAll opens = Except.ok sets) :
    (Compare join opens (fun _ => none)).written =
      ((buildState join (sets.map ResultSet.entries)).files.map
        (fun k => (lookupRow (buildState join (sets.map ResultSet.entries)).results
          k).getD [])).filter (fun r => !matchesRow r) ∧
    (∀ r, r ∈ (Compare join opens (fun _ => none)).written ↔
      (r ∈ (buildState join (sets.map ResultSet.entries)).files.map
        (fun k => (lookupRow (buildState join (sets.map ResultSet.entries)).results
          k).getD []) ∧ matchesRow r = false)) := by
  have hc := Compare_of_ok join opens sets h2 hopen
  refine ⟨by rw [hc], ?_⟩
  intro r
  rw [hc]
  simp [List.mem_filter]

/-- Witness for the amended claim C4 at an input with one matching and one
mismatching row. -/
theorem claimC4_amended_witness :
    (Compare 0
      [Except.ok ⟨[⟨"x", 0, "", "", ["a"]⟩, ⟨"y", 0, "", "", ["c"]⟩], ReadEnd.eof⟩,
       Except.ok ⟨[⟨"x", 0, "", "", ["a"]⟩, ⟨"y", 0, "", "", ["d"]⟩], ReadEnd.eof⟩]
      (fun _ => none)).written =
      ((buildState 0 [[⟨"x", 0, "", "", ["a"]⟩, ⟨"y", 0, "", "", ["c"]⟩],
          [⟨"x", 0, "", "", ["a"]⟩, ⟨"y", 0, "", "", ["d"]⟩]]).files.map
        (fun k => (lookupRow (buildState 0 [[⟨"x", 0, "", "", ["a"]⟩, ⟨"y", 0, "", "", ["c"]⟩],
          [⟨"x", 0, "", "", ["a"]⟩, ⟨"y", 0, "", "", ["d"]⟩]]).results k).getD [])).filter
        (fun r => !matchesRow r) :=
  (claimC4_amended 0
    [Except.ok ⟨[⟨"x", 0, "", "", ["a"]⟩, ⟨"y", 0, "", "", ["c"]⟩], ReadEnd.eof⟩,
     Except.ok ⟨[⟨"x", 0, "", "", ["a"]⟩, ⟨"y", 0, "", "", ["d"]⟩], ReadEnd.eof⟩]
    [⟨[⟨"x", 0, "", "", ["a"]⟩, ⟨"y", 0, "", "", ["c"]⟩], ReadEnd.eof⟩,
     ⟨[⟨"x", 0, "", "", ["a"]⟩, ⟨"y", 0, "", "", ["d"]⟩], ReadEnd.eof⟩]
    (by decide) rfl).1

/-- Claim C5, counterexample: two result sets agreeing on the single key x
yield one distinct key but zero output rows, because Compare only outputs
mismatching rows; the claim predicted one output row per distinct key. -/
theorem claimC5_counterexample :
    (Compare 0
      [Except.ok ⟨[⟨"x", 0, "", "", ["a"]⟩], ReadEnd.eof⟩,
       Except.ok ⟨[⟨"x", 0, "", "", ["a"]⟩], ReadEnd.eof⟩]
      (fun _ => none)).written.length = 0 ∧
    (buildState 0 [[⟨"x", 0, "", "", ["a"]⟩], [⟨"x", 0, "", "", ["a"]⟩]]).files.length
      = 1 := by
  refine ⟨?_, ?_⟩ <;> decide

/-- Claim C5, amended: for every join strategy the key table holds exactly
one row per distinct key observed across all inputs — the files slice has
no duplicates and contains exactly the observed keys — and the number of
rows Compare outputs equals the number of distinct keys whose row fails to
match. -/
theorem claimC5_amended (join : Int) (opens : List (Except String ResultSet))
    (sets : List ResultSet) (h2 : 2 ≤ opens.length)
    (hopen : openAll opens = Except.ok sets) :
    (buildState join (sets.map ResultSet.entries)).files.Nodup ∧
    (∀ k, k ∈ (buildState join (sets.map ResultSet.entries)).files ↔
      ∃ x ∈ stream (sets.map ResultSet.entries), keygen join x.2 = k) ∧
    (Compare join opens (fun _ => none)).written.length =
      (((buildState join (sets.map ResultSet.entries)).files.map
        (fun k => (lookupRow (buildState join (sets.map ResultSet.entries)).results
          k).getD [])).filter (fun r => !matchesRow r)).length := by
  obtain ⟨i1, i2, i3, i4⟩ :=
    compareInv (sets.map ResultSet.entries).length join (stream (sets.map ResultSet.entries))
  have hb := buildState_eq_runState join (sets.map ResultSet.entries)
  refine ⟨?_, ?_, ?_⟩
  · rw [hb, i2]
    exact firstSeen_nodup _
  · intro k
    rw [hb]
    have h1 : k ∈ (runState (sets.map ResultSet.entries).length join
        (stream (sets.map ResultSet.entries))).files ↔
        ¬lookupRow (runState (sets.map ResultSet.entries).length join
          (stream (sets.map ResultSet.entries))).results k = none := by
      rw [← i1]
      constructor
      · intro hm hn
        exact (lookupRow_eq_none _ _).mp hn hm
      · intro hn
        by_contra hm
        exact hn ((lookupRow_eq_none _ _).mpr hm)
    rw [h1, not_congr (i3 k)]
    exact firstKeyed_ne_none_iff join _ k
  · rw [Compare_of_ok join opens sets h2 hopen]

/-- Witness for the amended claim C5 at a two-set input with two distinct
keys, one matching and one missing from the second set. -/
theorem claimC5_amended_witness :
    (buildState 0 [[⟨"x", 0, "", "", ["a"]⟩, ⟨"y", 0, "", "", ["c"]⟩],
      [⟨"x", 0, "", "", ["a"]⟩]]).files.Nodup ∧
    (Compare 0
      [Except.ok ⟨[⟨"x", 0, "", "", ["a"]⟩, ⟨"y", 0, "", "", ["c"]⟩], ReadEnd.eof⟩,
       Except.ok ⟨[⟨"x", 0, "", "", ["a"]⟩], ReadEnd.eof⟩]
      (fun _ => none)).written.length =
      (((buildState 0 [[⟨"x", 0, "", "", ["a"]⟩, ⟨"y", 0, "", "", ["c"]⟩],
        [⟨"x", 0, "", "", ["a"]⟩]]).files.map
        (fun k => (lookupRow (buildState 0 [[⟨"x", 0, "", "", ["a"]⟩, ⟨"y", 0, "", "", ["c"]⟩],
          [⟨"x", 0, "", "", ["a"]⟩]]).results k).getD [])).filter
        (fun r => !matchesRow r)).length := by
  have h := claimC5_amended 0
    [Except.ok ⟨[⟨"x", 0, "", "", ["a"]⟩, ⟨"y", 0, "", "", ["c"]⟩], ReadEnd.eof⟩,
     Except.ok ⟨[⟨"x", 0, "", "", ["a"]⟩], ReadEnd.eof⟩]
    [⟨[⟨"x", 0, "", "", ["a"]⟩, ⟨"y", 0, "", "", ["c"]⟩], ReadEnd.eof⟩,
     ⟨[⟨"x", 0, "", "", ["a"]⟩], ReadEnd.eof⟩]
    (by decide) rfl
  exact ⟨h.1, h.2.2⟩

/-- Claim C6 (confirmed): throughout a run the key table holds exactly one
row per distinct key — its keys are exactly the files slice, without
duplicates, in first-seen order — every row has 1 + N columns, column 0 is
the path of the first stream entry that produced the key, every column of
a set that contributed no entry with the key holds the MISSING sentinel,
and the rows are emitted in files (first-seen) order. -/
theorem claimC6 (join : Int) (sets : List (List File)) :
    (buildState join sets).results.map Prod.fst = (buildState join sets).files ∧
    (buildState join sets).files.Nodup ∧
    (buildState join sets).files =
      firstSeen ((stream sets).map (fun x => keygen join x.2)) ∧
    (∀ k r, lookupRow (buildState join sets).results k = some r →
      r.length = sets.length + 1 ∧
      (∃ f, firstKeyed join (stream sets) k = some f ∧ r.getD 0 "" = f.Path) ∧
      (∀ j, j < sets.length →
        (∀ fs, sets[j]? = some fs → ∀ f ∈ fs, keygen join f ≠ k) →
        r.getD (j + 1) "" = "MISSING")) ∧
    (writeGo (fun _ => none) (buildState join sets).results
        (buildState join sets).files [] true).1 =
      ((buildState join sets).files.map
        (fun k => (lookupRow (buildState join sets).results k).getD [])).filter
        (fun r => !matchesRow r) := by
  obtain ⟨i1, i2, i3, i4⟩ := compareInv sets.length join (stream sets)
  rw [buildState_eq_runState]
  refine ⟨i1, ?_, i2, ?_, ?_⟩
  · rw [i2]
    exact firstSeen_nodup _
  · intro k r hr
    obtain ⟨hlen, hfst, hcols⟩ := i4 k r hr
    refine ⟨hlen, hfst, ?_⟩
    intro j hj hnone
    have hlast : lastKeyed join (stream sets) j k = none := by
      unfold lastKeyed
      rw [Option.map_eq_none', List.find?_eq_none]
      intro x hx
      simp only [Bool.and_eq_true, decide_eq_true_eq, not_and]
      intro hx1 hx2
      obtain ⟨fs, hfs, hf⟩ := (mem_stream sets x).mp (List.mem_reverse.mp hx)
      exact hnone fs (hx1 ▸ hfs) x.2 hf hx2
    have hcol := hcols j hj
    rw [hlast] at hcol
    exact hcol
  · rw [writeGo_ok]
    simp

/-- Witness for claim C6: the single row of a two-set input where only the
first set produced the key has three columns, the first producer's path in
column 0 and MISSING in the second set's column. -/
theorem claimC6_witness :
    lookupRow (buildState 0 [[⟨"x", 0, "", "", ["a"]⟩], []]).results "x" =
      some ["x", "a", "MISSING"] ∧
    (["x", "a", "MISSING"] : List String).length = 2 + 1 ∧
    (∃ f, firstKeyed 0 (stream [[⟨"x", 0, "", "", ["a"]⟩], []]) "x" = some f ∧
      (["x", "a", "MISSING"] : List String).getD 0 "" = f.Path) ∧
    (["x", "a", "MISSING"] : List String).getD 2 "" = "MISSING" := by
  have h := (claimC6 0 [[⟨"x", 0, "", "", ["a"]⟩], []]).2.2.2.1 "x"
    ["x", "a", "MISSING"] (by decide)
  refine ⟨by decide, h.1, h.2.1, ?_⟩
  refine h.2.2 1 (by decide) ?_
  intro fs hfs f hf
  have : fs = ([] : List File) := by
    simpa using hfs
  subst this
  simp at hf

/-- Claim C10 (confirmed): when a join key occurs more than once within one
input result set, the table keeps exactly one row for the key; the path
column comes from the first stream entry with the key, the set's identity
column holds idStr of the set's last entry with the key (later occurrences
overwrite earlier ones), and the row's position comes from the first
occurrence: the files slice lists keys in first-seen order, and once any
stream prefix containing an occurrence of the key has been consumed the
key's index in the files slice is final — later entries never move it. -/
theorem claimC10 (join : Int) (sets : List (List File)) (i : Nat) (k : String)
    (hocc : 2 ≤ ((stream sets).filter
      (fun x => decide (x.1 = i) && decide (keygen join x.2 = k))).length) :
    ∃ r g f, lookupRow (buildState join sets).results k = some r ∧
      lastKeyed join (stream sets) i k = some g ∧
      r.getD (i + 1) "" = idStr g ∧
      firstKeyed join (stream sets) k = some f ∧
      r.getD 0 "" = f.Path ∧
      ((buildState join sets).results.map Prod.fst).count k = 1 ∧
      (buildState join sets).files =
        firstSeen ((stream sets).map (fun x => keygen join x.2)) ∧
      (∀ p q, stream sets = p ++ q → (∃ x ∈ p, keygen join x.2 = k) →
        (buildState join sets).files.indexOf k =
          (runState sets.length join p).files.indexOf k) := by
  obtain ⟨i1, i2, i3, i4⟩ := compareInv sets.length join (stream sets)
  rw [buildState_eq_runState]
  have hpos : 0 < ((stream sets).filter
      (fun x => decide (x.1 = i) && decide (keygen join x.2 = k))).length := by omega
  obtain ⟨x, hxf⟩ := List.exists_mem_of_length_pos hpos
  rw [List.mem_filter] at hxf
  obtain ⟨hxmem, hxpred⟩ := hxf
  simp only [Bool.and_eq_true, decide_eq_true_eq] at hxpred
  have hi : i < sets.length := hxpred.1 ▸ stream_fst_lt sets x hxmem
  have hlast : lastKeyed join (stream sets) i k ≠ none := by
    intro hnone
    unfold lastKeyed at hnone
    rw [Option.map_eq_none', List.find?_eq_none] at hnone
    exact absurd (by simp [hxpred.1, hxpred.2])
      (hnone x (List.mem_reverse.mpr hxmem))
  obtain ⟨g, hg⟩ := Option.ne_none_iff_exists'.mp hlast
  have hfk : firstKeyed join (stream sets) k ≠ none := by
    intro hnone
    rw [lastKeyed_eq_none_of_firstKeyed join _ i k hnone] at hg
    exact Option.noConfusion hg
  have hlk : lookupRow (runState sets.length join (stream sets)).results k ≠ none := by
    intro hnone
    exact hfk ((i3 k).mp hnone)
  obtain ⟨r, hr⟩ := Option.ne_none_iff_exists'.mp hlk
  obtain ⟨hlen, ⟨f, hf, hpath⟩, hcols⟩ := i4 k r hr
  refine ⟨r, g, f, hr, hg, ?_, hf, hpath, ?_, i2, ?_⟩
  · have hcol := hcols i hi
    rw [hg] at hcol
    exact hcol
  · have hmem : k ∈ (runState sets.length join (stream sets)).files := by
      rw [← i1]
      by_contra hno
      exact hlk ((lookupRow_eq_none _ _).mpr hno)
    rw [i1]
    refine List.count_eq_one_of_mem ?_ hmem
    rw [i2]
    exact firstSeen_nodup _
  · intro p q hpq hex
    rw [hpq]
    obtain ⟨ext, hext⟩ := runState_files_append sets.length join p q
    rw [hext]
    exact List.indexOf_append_of_mem ((mem_files_iff sets.length join p k).mpr hex)

/-- Witness for claim C10 at an input whose first set holds key x twice
with different identifications. -/
theorem claimC10_witness :
    ∃ r g f, lookupRow (buildState 0 [[⟨"x", 0, "", "", ["a"]⟩, ⟨"x", 0, "", "", ["c"]⟩],
        [⟨"x", 0, "", "", ["b"]⟩]]).results "x" = some r ∧
      lastKeyed 0 (stream [[⟨"x", 0, "", "", ["a"]⟩, ⟨"x", 0, "", "", ["c"]⟩],
        [⟨"x", 0, "", "", ["b"]⟩]]) 0 "x" = some g ∧
      r.getD 1 "" = idStr g ∧
      firstKeyed 0 (stream [[⟨"x", 0, "", "", ["a"]⟩, ⟨"x", 0, "", "", ["c"]⟩],
        [⟨"x", 0, "", "", ["b"]⟩]]) "x" = some f ∧
      r.getD 0 "" = f.Path ∧
      ((buildState 0 [[⟨"x", 0, "", "", ["a"]⟩, ⟨"x", 0, "", "", ["c"]⟩],
        [⟨"x", 0, "", "", ["b"]⟩]]).results.map Prod.fst).count "x" = 1 ∧
      (buildState 0 [[⟨"x", 0, "", "", ["a"]⟩, ⟨"x", 0, "", "", ["c"]⟩],
        [⟨"x", 0, "", "", ["b"]⟩]]).files =
        firstSeen ((stream [[⟨"x", 0, "", "", ["a"]⟩, ⟨"x", 0, "", "", ["c"]⟩],
          [⟨"x", 0, "", "", ["b"]⟩]]).map (fun x => keygen 0 x.2)) ∧
      (∀ p q, stream [[⟨"x", 0, "", "", ["a"]⟩, ⟨"x", 0, "", "", ["c"]⟩],
          [⟨"x", 0, "", "", ["b"]⟩]] = p ++ q →
        (∃ x ∈ p, keygen 0 x.2 = "x") →
        (buildState 0 [[⟨"x", 0, "", "", ["a"]⟩, ⟨"x", 0, "", "", ["c"]⟩],
          [⟨"x", 0, "", "", ["b"]⟩]]).files.indexOf "x" =
          (runState 2 0 p).files.indexOf "x") :=
  claimC10 0 [[⟨"x", 0, "", "", ["a"]⟩, ⟨"x", 0, "", "", ["c"]⟩],
    [⟨"x", 0, "", "", ["b"]⟩]] 0 "x" (by decide)

/-- Behaviour of Compare with at least two paths and successful opens, for
an arbitrary writer: the outcome is read off the output loop. -/
theorem Compare_ok_general (join : Int) (opens : List (Except String ResultSet))
    (sets : List ResultSet) (wr : List String → Option String)
    (h2 : 2 ≤ opens.length) (hopen : openAll opens = Except.ok sets) :
    Compare join opens wr =
      (match writeGo wr (buildState join (sets.map ResultSet.entries)).results
          (buildState join (sets.map ResultSet.entries)).files [] true with
      | (written, complete, none) => ⟨written, complete, none⟩
      | (written, _, some e) => ⟨written, false, some e⟩) := by
  unfold Compare
  rw [if_neg (by omega), hopen]

/-- Claim C1, counterexample: a File whose identification list is the
duplicate-holding ["a", "a"] gets its column written as "a;a" — the code
sorts but does not deduplicate — while idStrSpec, following the claim's
words, yields "a". -/
theorem claimC1_counterexample :
    (Compare 0
      [Except.ok ⟨[⟨"x", 0, "", "", ["a", "a"]⟩], ReadEnd.eof⟩,
       Except.ok ⟨[⟨"x", 0, "", "", ["b"]⟩], ReadEnd.eof⟩]
      (fun _ => none)).written = [["x", "a;a", "b"]] ∧
    idStrSpec ⟨"x", 0, "", "", ["a", "a"]⟩ = "a" ∧
    idStr ⟨"x", 0, "", "", ["a", "a"]⟩ ≠ idStrSpec ⟨"x", 0, "", "", ["a", "a"]⟩ := by
  refine ⟨?_, ?_, ?_⟩ <;> decide

/-- Claim C1, amended: every identity column Compare fills holds idStr of
the producing entry — the semicolon join of its identity strings sorted
ascending with duplicates preserved — and idStr is insensitive to the
order in which the identifications were produced. -/
theorem claimC1_amended :
    (∀ (join : Int) (sets : List (List File)) (i : Nat) (k : String) (g : File),
      lastKeyed join (stream sets) i k = some g → i < sets.length →
      ∃ r, lookupRow (buildState join sets).results k = some r ∧
        r.getD (i + 1) "" = idStr g) ∧
    (∀ fi : File, ∃ l, l.Perm fi.IDs ∧ l.Pairwise strLeP ∧
      idStr fi = String.intercalate ";" l) ∧
    (∀ f1 f2 : File, f1.IDs.Perm f2.IDs → idStr f1 = idStr f2) := by
  refine ⟨?_, ?_, ?_⟩
  · intro join sets i k g hg hi
    obtain ⟨i1, i2, i3, i4⟩ := compareInv sets.length join (stream sets)
    rw [buildState_eq_runState]
    have hfk : firstKeyed join (stream sets) k ≠ none := by
      intro hnone
      rw [lastKeyed_eq_none_of_firstKeyed join _ i k hnone] at hg
      exact Option.noConfusion hg
    have hlk : lookupRow (runState sets.length join (stream sets)).results k ≠ none :=
      fun hnone => hfk ((i3 k).mp hnone)
    obtain ⟨r, hr⟩ := Option.ne_none_iff_exists'.mp hlk
    obtain ⟨hlen, hfst, hcols⟩ := i4 k r hr
    refine ⟨r, hr, ?_⟩
    have hcol := hcols i hi
    rw [hg] at hcol
    exact hcol
  · intro fi
    exact ⟨fi.IDs.insertionSort strLeP, List.perm_insertionSort _ _,
      List.sorted_insertionSort strLeP fi.IDs, rfl⟩
  · intro f1 f2 hperm
    unfold idStr
    congr 1
    refine List.eq_of_perm_of_sorted ?_ (List.sorted_insertionSort strLeP f1.IDs)
      (List.sorted_insertionSort strLeP f2.IDs)
    exact (List.perm_insertionSort _ _).trans
      (hperm.trans (List.perm_insertionSort _ _).symm)

/-- Witness for the amended claim C1: the column of the single entry of the
first set of a two-set input holds its idStr. -/
theorem claimC1_amended_witness :
    ∃ r, lookupRow (buildState 0 [[⟨"x", 0, "", "", ["b", "a"]⟩], []]).results "x" =
      some r ∧ r.getD 1 "" = idStr ⟨"x", 0, "", "", ["b", "a"]⟩ :=
  claimC1_amended.1 0 [[⟨"x", 0, "", "", ["b", "a"]⟩], []] 0 "x"
    ⟨"x", 0, "", "", ["b", "a"]⟩ (by decide) (by decide)

/-- Claim C2, counterexample: the first result set ends in a parse error
after one entry, yet Compare returns no error — the entry loop treats any
Next error like end of data and drops it. -/
theorem claimC2_counterexample :
    (Compare 0
      [Except.ok ⟨[⟨"x", 0, "", "", ["a"]⟩], ReadEnd.fail "parse error"⟩,
       Except.ok ⟨[⟨"x", 0, "", "", ["a"]⟩], ReadEnd.eof⟩]
      (fun _ => none)).err = none := by
  decide

/-- Claim C2, amended: the outcome of Compare is wholly independent of how
each result set's reading ended, so a parse error merely ends that set's
consumption without aborting the run; after successful opens the only
errors Compare returns are csv write errors, returned as-is. -/
theorem claimC2_amended :
    (∀ (join : Int) (opens opens' : List (Except String ResultSet))
        (wr : List String → Option String),
      List.Forall₂ OpenShape opens opens' →
      Compare join opens wr = Compare join opens' wr) ∧
    (∀ (join : Int) (opens : List (Except String ResultSet))
        (wr : List String → Option String) (sets : List ResultSet) (e : String),
      2 ≤ opens.length →
      openAll opens = Except.ok sets →
      (Compare join opens wr).err = some e →
      ∃ row, wr row = some e) := by
  constructor
  · intro join opens opens' wr hshape
    by_cases hl : opens.length < 2
    · have hl' : opens'.length < 2 := by
        rw [← hshape.length_eq]
        exact hl
      unfold Compare
      rw [if_pos hl, if_pos hl', hshape.length_eq]
    · have hl' : ¬opens'.length < 2 := by
        rw [← hshape.length_eq]
        exact hl
      rcases openAll_shape opens opens' hshape with ⟨e, h1, h2⟩ | ⟨s, s', h1, h2, h3⟩
      · unfold Compare
        rw [if_neg hl, if_neg hl', h1, h2]
      · rw [Compare_ok_general join opens s wr (by omega) h1,
          Compare_ok_general join opens' s' wr (by omega) h2, h3]
  · intro join opens wr sets e hlen hopen herr
    rw [Compare_ok_general join opens sets wr hlen hopen] at herr
    rcases hw : writeGo wr (buildState join (sets.map ResultSet.entries)).results
        (buildState join (sets.map ResultSet.entries)).files [] true with ⟨w, c, oe⟩
    rw [hw] at herr
    cases oe with
    | none => exact absurd herr (by simp)
    | some e0 =>
      have he : e0 = e := by simpa using herr
      subst he
      exact writeGo_err _ _ _ _ _ _ _ _ hw

/-- Witness for the amended claim C2: changing a set's terminating error
does not change the outcome, and a failing write surfaces its error. -/
theorem claimC2_amended_witness :
    Compare 0 [Except.ok ⟨[], ReadEnd.fail "boom"⟩, Except.ok ⟨[], ReadEnd.eof⟩]
        (fun _ => none) =
      Compare 0 [Except.ok ⟨[], ReadEnd.eof⟩, Except.ok ⟨[], ReadEnd.eof⟩]
        (fun _ => none) ∧
    (∃ row, (fun _ : List String => some "disk full") row = some "disk full") := by
  constructor
  · refine claimC2_amended.1 0 _ _ _ ?_
    exact List.Forall₂.cons rfl (List.Forall₂.cons rfl List.Forall₂.nil)
  · exact claimC2_amended.2 0
      [Except.ok ⟨[⟨"x", 0, "", "", ["a"]⟩], ReadEnd.eof⟩,
       Except.ok ⟨[⟨"x", 0, "", "", ["b"]⟩], ReadEnd.eof⟩]
      (fun _ => some "disk full")
      [⟨[⟨"x", 0, "", "", ["a"]⟩], ReadEnd.eof⟩, ⟨[⟨"x", 0, "", "", ["b"]⟩], ReadEnd.eof⟩]
      "disk full" (by decide) rfl (by decide)

/-- Claim C8 (confirmed): with fewer than two paths Compare returns the
usage error whatever the open outcomes are — the check precedes any
opening — and when a path fails to open, the first such error is returned
with nothing written and no marker, whatever any result set holds, since
all readers are opened before any is consumed. -/
theorem claimC8 :
    (∀ (join : Int) (opens : List (Except String ResultSet))
        (wr : List String → Option String),
      opens.length < 2 →
      Compare join opens wr =
        ⟨[], false,
          some ("at least two results files must be provided for comparison; got "
            ++ toString opens.length)⟩) ∧
    (∀ (join : Int) (good rest : List (Except String ResultSet)) (e : String)
        (wr : List String → Option String),
      (∀ x ∈ good, ∃ r, x = Except.ok r) →
      2 ≤ (good ++ Except.error e :: rest).length →
      Compare join (good ++ Except.error e :: rest) wr = ⟨[], false, some e⟩) := by
  constructor
  · intro join opens wr hl
    unfold Compare
    rw [if_pos hl]
  · intro join good rest e wr hgood hlen
    unfold Compare
    rw [if_neg (by omega), openAll_first_error good e rest hgood]

/-- Witness for claim C8: a one-path call fails with the usage error, and a
call whose second path fails to open returns that error untouched. -/
theorem claimC8_witness :
    Compare 0 [Except.ok ⟨[], ReadEnd.eof⟩] (fun _ => none) =
      ⟨[], false,
        some "at least two results files must be provided for comparison; got 1"⟩ ∧
    Compare 0 [Except.ok ⟨[⟨"x", 0, "", "", ["a"]⟩], ReadEnd.eof⟩,
        Except.error "no such file", Except.ok ⟨[], ReadEnd.eof⟩] (fun _ => none) =
      ⟨[], false, some "no such file"⟩ := by
  constructor
  · exact claimC8.1 0 [Except.ok ⟨[], ReadEnd.eof⟩] (fun _ => none) (by decide)
  · exact claimC8.2 0 [Except.ok ⟨[⟨"x", 0, "", "", ["a"]⟩], ReadEnd.eof⟩]
      [Except.ok ⟨[], ReadEnd.eof⟩] "no such file" (fun _ => none)
      (by
        intro x hx
        rw [List.mem_singleton] at hx
        exact ⟨_, hx⟩)
      (by decide)

/-- Claim C7 (confirmed): LoadIdentifier on a cursor whose next tag byte
has no registered loader returns the null identifier without faulting and
records the bad-identifier-loader error on the sticky error state, but
only when no earlier error is present: an earlier sticky error is
preserved, not overwritten. -/
theorem claimC7 (loaders : List (Option IdentifierLoader)) (ls : LoadSaver)
    (h : loaders.get? (LoadByte ls).1 = some none) :
    ∃ ls2, LoadIdentifier loaders ls = some (none, ls2) ∧
      (ls.Err = none → ls.pos < ls.buf.length →
        ls2.Err = some "bad identifier loader") ∧
      (∀ e, ls.Err = some e → ls2.Err = some e) := by
  simp only [LoadIdentifier, h]
  refine ⟨_, rfl, ?_, ?_⟩
  · intro hE hpos
    simp [LoadByte, hE, hpos]
  · intro e hE
    simp [LoadByte, hE]

/-- Witness for claim C7 at the populated registry and a healthy cursor
whose next byte is the unregistered tag 3. -/
theorem claimC7_witness :
    regLoaders.get? (LoadByte ⟨[3], 0, none⟩).1 = some none ∧
    ∃ ls2, LoadIdentifier regLoaders ⟨[3], 0, none⟩ = some (none, ls2) ∧
      ((⟨[3], 0, none⟩ : LoadSaver).Err = none →
        (⟨[3], 0, none⟩ : LoadSaver).pos < (⟨[3], 0, none⟩ : LoadSaver).buf.length →
        ls2.Err = some "bad identifier loader") ∧
      (∀ e, (⟨[3], 0, none⟩ : LoadSaver).Err = some e → ls2.Err = some e) :=
  ⟨rfl, claimC7 regLoaders ⟨[3], 0, none⟩ rfl⟩

/-- Claim C9, counterexample: with the 8-slot table holding only the Pronom
loader, a tag byte of 8 sends the lookup out of bounds — the Go indexing
loaders[int(id)] panics, modelled by LoadIdentifier returning none — so
the call is not safe for every byte value. -/
theorem claimC9_counterexample :
    LoadIdentifier regLoaders ⟨[8], 0, none⟩ = none := rfl

/-- Claim C9, amended: the lookup into the 8-slot table is safe exactly for
tag bytes below 8 — the call then invokes the registered loader or returns
the null identifier with the sticky error set, without faulting — while a
tag byte of 8 or above indexes out of bounds and the call faults. -/
theorem claimC9_amended (loaders : List (Option IdentifierLoader)) (ls : LoadSaver)
    (hlen : loaders.length = 8) :
    ((LoadByte ls).1 < 8 → ∃ res, LoadIdentifier loaders ls = some res) ∧
    (8 ≤ (LoadByte ls).1 → LoadIdentifier loaders ls = none) := by
  constructor
  · intro hb
    cases hg : loaders[(LoadByte ls).1]? with
    | none =>
      rw [List.getElem?_eq_none_iff] at hg
      omega
    | some o =>
      cases o with
      | none =>
        exact ⟨(none,
          if (LoadByte ls).2.Err = none then
            { (LoadByte ls).2 with Err := some "bad identifier loader" }
          else (LoadByte ls).2), by simp [LoadIdentifier, hg]⟩
      | some l => exact ⟨l (LoadByte ls).2, by simp [LoadIdentifier, hg]⟩
  · intro hb
    have hg : loaders[(LoadByte ls).1]? = none := List.getElem?_eq_none (by omega)
    simp [LoadIdentifier, hg]

/-- Witness for the amended claim C9: on the populated registry and a
healthy cursor reading byte 3 the call does not fault. -/
theorem claimC9_amended_witness :
    regLoaders.length = 8 ∧ (LoadByte ⟨[3], 0, none⟩).1 < 8 ∧
    ∃ res, LoadIdentifier regLoaders ⟨[3], 0, none⟩ = some res :=
  ⟨rfl, by decide, (claimC9_amended regLoaders ⟨[3], 0, none⟩ rfl).1 (by decide)⟩

end Sieg
